import Mathlib

/-!
Verification of the asset-pricing library core.

Shallow embedding of the valuation engine of the repository
(`src/curves/yield_curve.py`, `src/models/black_scholes.py`,
`src/models/calibration.py`, `src/models/monte_carlo.py`,
`src/products/option.py`, `src/products/coupon_bond.py`,
`src/products/swap.py`) and proofs about it.

Python floats are idealised as elements of a linear ordered field
(instantiated at `ℚ` where decidability helps and at `ℝ` where the
transcendental functions matter).  The external library functions
`math.exp`, `math.log`, `math.sqrt` and `scipy.stats.norm.cdf/pdf` are
passed as explicit function parameters (`expF`, `logF`, `sqrtF`, `Φ`,
`φd`); theorems state exactly the properties of them that the claims
need, and instantiate them with `Real.exp`, `Real.log`, `Real.sqrt`
where the real functions are required.  Fallible Python code is
embedded in `Except PyErr`, with one error constructor per Python
exception class that the embedded code can raise.
-/

/-- The Python exception classes the embedded code can raise. -/
inductive PyErr where
  | valueError          -- `ValueError` (also `math domain error`)
  | indexError          -- `IndexError` (list index out of range)
  | typeError           -- `TypeError` (wrong arity / operand type)
  | zeroDivisionError   -- `ZeroDivisionError` (float division by zero)
  | unboundLocalError   -- `UnboundLocalError` (local read before assignment)
  deriving DecidableEq, Repr

/-- Embeds `YieldCurve` state: the two parallel lists stored by
`YieldCurve.__init__` (`yield_curve.py` lines 22-23). -/
structure YieldCurve (α : Type) where
  maturities : List α
  zero_rates : List α
  deriving DecidableEq, Repr

namespace YieldCurve

variable {α : Type} [LinearOrderedField α]

/-- Embeds `YieldCurve.__init__` (`yield_curve.py` lines 10-23): raises
`ValueError` when the two lists differ in length, otherwise stores them
unchecked (no sortedness or non-emptiness validation). -/
def make (maturities zero_rates : List α) : Except PyErr (YieldCurve α) :=
  if maturities.length = zero_rates.length then
    .ok ⟨maturities, zero_rates⟩
  else
    .error .valueError

/-- The `for i in range(len(self.maturities) - 1)` loop of `zero_rate`
(`yield_curve.py` lines 40-47), walking the two lists in lockstep,
exactly as indexing `maturities[i], maturities[i+1]` and
`zero_rates[i], zero_rates[i+1]` does.  When the rate list runs out
while a maturity pair remains, the indexing raises `IndexError`; when
the loop finishes without a bracketing interval the Python function
falls through and returns `None`. -/
def interpLoop (t : α) : List α → List α → Except PyErr (Option α)
  | m1 :: m2 :: ms, r1 :: r2 :: rs =>
      if m1 ≤ t ∧ t ≤ m2 then
        .ok (some (r1 + (t - m1) / (m2 - m1) * (r2 - r1)))
      else
        interpLoop t (m2 :: ms) (r2 :: rs)
  | _ :: _ :: _, _ => .error .indexError
  | _, _ => .ok none

/-- Embeds `YieldCurve.zero_rate` (`yield_curve.py` lines 25-47).  Mirrors the
source line by line: exact-membership lookup via `list.index`, then the
`t <= maturities[0]` scaling branch (`zero_rates[0]*t/maturities[0]`,
which divides by the first maturity), then the `t >= maturities[-1]`
flat branch, then the interpolation loop.  List indexing on an empty
list raises `IndexError`; the division raises `ZeroDivisionError` when
the first maturity is zero; a fall-through returns Python `None`,
embedded as `.ok none`. -/
def zero_rate (c : YieldCurve α) (t : α) : Except PyErr (Option α) :=
  if t ∈ c.maturities then
    match c.zero_rates.get? (c.maturities.indexOf t) with
    | some r => .ok (some r)
    | none => .error .indexError
  else
    match c.maturities.head? with
    | none => .error .indexError
    | some m0 =>
      if t ≤ m0 then
        match c.zero_rates.head? with
        | none => .error .indexError
        | some r0 =>
          if m0 = 0 then .error .zeroDivisionError
          else .ok (some (r0 * t / m0))
      else
        match c.maturities.getLast? with
        | none => .error .indexError
        | some mN =>
          if mN ≤ t then
            match c.zero_rates.getLast? with
            | some rN => .ok (some rN)
            | none => .error .indexError
          else
            interpLoop t c.maturities c.zero_rates

/-- Embeds `YieldCurve.discount_factor` (`yield_curve.py` lines 49-54):
`exp(-r*t)` with `r = zero_rate(t)`; `expF` stands for `math.exp`.
When `zero_rate` falls through and returns `None`, the multiplication
`-None * t` raises `TypeError`. -/
def discount_factor (expF : α → α) (c : YieldCurve α) (t : α) :
    Except PyErr α :=
  match c.zero_rate t with
  | .ok (some r) => .ok (expF (-(r * t)))
  | .ok none => .error .typeError
  | .error e => .error e

/-- Embeds `YieldCurve.move_rate` (`yield_curve.py` lines 56-70): keeps the
knots whose shifted rate `r - dr` is still nonnegative and shifts them;
knots with `r - dr < 0` are dropped. -/
def move_rate (c : YieldCurve α) (dr : α) : YieldCurve α :=
  let kept := (c.maturities.zip c.zero_rates).filter fun p => 0 ≤ p.2 - dr
  ⟨kept.map Prod.fst, kept.map fun p => p.2 - dr⟩

/-- Embeds `YieldCurve.move_time` (`yield_curve.py` lines 72-87).  Its first
statement is `max = max(self.maturities)`: because `max` is assigned in
the function body, Python treats `max` as a local name throughout the
body, so the right-hand side reads the local `max` before it has been
bound and every call raises `UnboundLocalError` — the body never
reaches the translation loop. -/
def move_time (_c : YieldCurve α) (_dt : α) : Except PyErr (YieldCurve α) :=
  .error .unboundLocalError

end YieldCurve

/-- The option hierarchy of `src/products/option.py`: the base class
`Option` carries `strike` and `maturity`; the two subclasses
`EuropeanCall` and `EuropeanPut` differ only in `payoff`.  Subclass
dispatch is embedded as a two-constructor inductive. -/
inductive EuOption (α : Type) where
  | europeanCall (strike maturity : α)
  | europeanPut (strike maturity : α)
  deriving DecidableEq, Repr

namespace EuOption

variable {α : Type} [LinearOrderedField α]

/-- Embeds `Option.strike`. -/
def strike : EuOption α → α
  | .europeanCall k _ => k
  | .europeanPut k _ => k

/-- Embeds `Option.maturity`. -/
def maturity : EuOption α → α
  | .europeanCall _ t => t
  | .europeanPut _ t => t

/-- Embeds `EuropeanCall.payoff` / `EuropeanPut.payoff` (`option.py` lines
14-15 and 22-23): `max(S - K, 0)` for a call, `max(K - S, 0)` for a
put. -/
def payoff (o : EuOption α) (S : α) : α :=
  match o with
  | .europeanCall k _ => max (S - k) 0
  | .europeanPut k _ => max (k - S) 0

end EuOption

/-- Embeds `BlackScholesModel` state (`black_scholes.py` lines 11-16). -/
structure BlackScholesModel (α : Type) where
  spot : α
  rate : α
  vol : α
  q : α
  repo_rate : α
  deriving DecidableEq, Repr

namespace BlackScholesModel

variable {α : Type} [LinearOrderedField α]

/-- Embeds `BlackScholesModel.d1` (`black_scholes.py` lines 18-20):
`(log(spot/strike) + (rate - q - repo + vol²/2)·maturity) / (vol·√maturity)`.
`logF` stands for `math.log` and `sqrtF` for `math.sqrt`.  Python
evaluation order of the source expression: `spot / strike` raises
`ZeroDivisionError` when `strike = 0`; `math.log` raises `ValueError`
on a non-positive argument; `math.sqrt` raises `ValueError` on a
negative argument; the final division raises `ZeroDivisionError` when
the denominator `vol·√maturity` is zero. -/
def d1 (logF sqrtF : α → α) (m : BlackScholesModel α)
    (strike maturity : α) : Except PyErr α :=
  if strike = 0 then .error .zeroDivisionError
  else if m.spot / strike ≤ 0 then .error .valueError
  else if maturity < 0 then .error .valueError
  else if m.vol * sqrtF maturity = 0 then .error .zeroDivisionError
  else .ok ((logF (m.spot / strike)
      + (m.rate - m.q - m.repo_rate + m.vol ^ 2 / 2) * maturity)
      / (m.vol * sqrtF maturity))

/-- Embeds `BlackScholesModel.call_price` (`black_scholes.py` lines 37-42):
`spot·Φ(d1) - strike·exp(-rate·maturity)·Φ(d2)` with
`d2 = d1 - vol·√maturity`.  `Φ` stands for `scipy.stats.norm.cdf` and
`expF` for `math.exp` (both total). -/
def call_price (logF sqrtF expF Φ : α → α) (m : BlackScholesModel α)
    (o : EuOption α) : Except PyErr α :=
  match m.d1 logF sqrtF o.strike o.maturity with
  | .error e => .error e
  | .ok d1v =>
    let d2v := d1v - m.vol * sqrtF o.maturity
    .ok (m.spot * Φ d1v
        - o.strike * expF (-(m.rate * o.maturity)) * Φ d2v)

/-- Embeds `BlackScholesModel.put_price` (`black_scholes.py` lines 44-49):
`strike·exp(-rate·maturity)·Φ(-d2) - spot·Φ(-d1)`. -/
def put_price (logF sqrtF expF Φ : α → α) (m : BlackScholesModel α)
    (o : EuOption α) : Except PyErr α :=
  match m.d1 logF sqrtF o.strike o.maturity with
  | .error e => .error e
  | .ok d1v =>
    let d2v := d1v - m.vol * sqrtF o.maturity
    .ok (o.strike * expF (-(m.rate * o.maturity)) * Φ (-d2v)
        - m.spot * Φ (-d1v))

/-- Embeds `BlackScholesModel.price` (`black_scholes.py` lines 25-29):
dispatches on the runtime class of the option. -/
def price (logF sqrtF expF Φ : α → α) (m : BlackScholesModel α)
    (o : EuOption α) : Except PyErr α :=
  match o with
  | .europeanCall _ _ => m.call_price logF sqrtF expF Φ o
  | .europeanPut _ _ => m.put_price logF sqrtF expF Φ o

/-- Embeds `BlackScholesModel.call_delta` (`black_scholes.py` lines 51-53):
`Φ(d1)` (the `exp(-q·maturity)` factor is commented out in the
source). -/
def call_delta (logF sqrtF Φ : α → α) (m : BlackScholesModel α)
    (o : EuOption α) : Except PyErr α :=
  match m.d1 logF sqrtF o.strike o.maturity with
  | .error e => .error e
  | .ok d1v => .ok (Φ d1v)

/-- Embeds `BlackScholesModel.put_delta` (`black_scholes.py` lines 55-57):
`Φ(d1) - 1`. -/
def put_delta (logF sqrtF Φ : α → α) (m : BlackScholesModel α)
    (o : EuOption α) : Except PyErr α :=
  match m.d1 logF sqrtF o.strike o.maturity with
  | .error e => .error e
  | .ok d1v => .ok (Φ d1v - 1)

/-- Embeds `BlackScholesModel.delta` (`black_scholes.py` lines 31-35):
dispatches on the runtime class of the option. -/
def delta (logF sqrtF Φ : α → α) (m : BlackScholesModel α)
    (o : EuOption α) : Except PyErr α :=
  match o with
  | .europeanCall _ _ => m.call_delta logF sqrtF Φ o
  | .europeanPut _ _ => m.put_delta logF sqrtF Φ o

/-- Embeds `BlackScholesModel.gamma` (`black_scholes.py` lines 59-61):
`φ(d1) / (spot·vol·√maturity)`; `φd` stands for
`scipy.stats.norm.pdf`.  The division raises `ZeroDivisionError`
when `spot·vol·√maturity` is zero. -/
def gamma (logF sqrtF φd : α → α) (m : BlackScholesModel α)
    (o : EuOption α) : Except PyErr α :=
  match m.d1 logF sqrtF o.strike o.maturity with
  | .error e => .error e
  | .ok d1v =>
    if m.spot * m.vol * sqrtF o.maturity = 0 then .error .zeroDivisionError
    else .ok (φd d1v / (m.spot * m.vol * sqrtF o.maturity))

/-- Embeds `BlackScholesModel.vega` (`black_scholes.py` lines 63-65):
`spot·φ(d1)·√maturity`. -/
def vega (logF sqrtF φd : α → α) (m : BlackScholesModel α)
    (o : EuOption α) : Except PyErr α :=
  match m.d1 logF sqrtF o.strike o.maturity with
  | .error e => .error e
  | .ok d1v => .ok (m.spot * φd d1v * sqrtF o.maturity)

end BlackScholesModel

/-- Embeds `ImpliedVolatilitySolver` (`calibration.py` lines 4-10) holds the
model to invert. -/
structure ImpliedVolatilitySolver (α : Type) where
  model : BlackScholesModel α

namespace ImpliedVolatilitySolver

variable {α : Type} [LinearOrderedField α]

/-- Embeds `ImpliedVolatilitySolver.implied_vol_call` (`calibration.py` lines
12-27).  The objective closure at line 18 is
`self.model.call_price(option, vol) - market_price`, a call of
`call_price` with two positional arguments; `BlackScholesModel.call_price`
(`black_scholes.py` line 37) accepts only `option`, so the very first
objective evaluation inside `brentq` raises
`TypeError: call_price() takes 2 positional arguments but 3 were given`.
The handler at line 26 catches only `ValueError` (the no-sign-change
signal of `brentq`), so the `TypeError` propagates to the caller on
every invocation, before any bracketing check. -/
def implied_vol_call (_solver : ImpliedVolatilitySolver α)
    (_option : EuOption α) (_market_price : α) : Except PyErr α :=
  .error .typeError

/-- Embeds `ImpliedVolatilitySolver.implied_vol_put` (`calibration.py` lines
29-43): same shape as `implied_vol_call`; the objective calls
`self.model.put_price(option, vol)` with two arguments while
`BlackScholesModel.put_price` (`black_scholes.py` line 44) accepts only
`option`, so every invocation raises an uncaught `TypeError`. -/
def implied_vol_put (_solver : ImpliedVolatilitySolver α)
    (_option : EuOption α) (_market_price : α) : Except PyErr α :=
  .error .typeError

end ImpliedVolatilitySolver

/-- Embeds `MonteCarloPricer` state (`monte_carlo.py` lines 36-42).  The
private generator `self.rng` is embedded by passing the list of
standard-normal draws it would produce explicitly to each pricing
call (`n_sims` draws per call). -/
structure MonteCarloPricer (α : Type) where
  spot : α
  rate : α
  q : α
  vol : α
  n_sims : ℕ
  deriving DecidableEq, Repr

namespace MonteCarloPricer

variable {α : Type} [LinearOrderedField α]

/-- Embeds `MonteCarloPricer.simulate_terminal_price` (`monte_carlo.py` lines
44-49): `spot·exp((rate - q - vol²/2)·maturity + vol·√maturity·z)` for
each draw `z`.  `draws` is the vector `self.rng.normal(size=self.n_sims)`. -/
def simulate_terminal_price (expF sqrtF : α → α) (draws : List α)
    (spot rate maturity vol dividend_yield : α) : List α :=
  draws.map fun z =>
    spot * expF ((rate - dividend_yield - vol ^ 2 / 2) * maturity
      + vol * sqrtF maturity * z)

/-- Embeds `MonteCarloPricer.price` (`monte_carlo.py` lines 51-61).  Each of
`spot`, `vol`, `rate`, `maturity` may be overridden per call (`None`
means use the base value, with `maturity` defaulting to that of the option).
The source passes no dividend yield to `simulate_terminal_price`, so
the simulation uses the default `dividend_yield=0.0` rather than
`self.q`; and the discount factor at line 61 is
`np.exp(-self.rate * maturity)` — it uses the base rate `self.rate`,
not the per-call `rate` just resolved at line 55.  The mean of the
payoff vector is its sum divided by its length. -/
def price (expF sqrtF : α → α) (m : MonteCarloPricer α) (draws : List α)
    (o : EuOption α) (spot? vol? rate? maturity? : Option α) : α :=
  let spot := spot?.getD m.spot
  let vol := vol?.getD m.vol
  let rate := rate?.getD m.rate
  let maturity := maturity?.getD o.maturity
  let ST := simulate_terminal_price expF sqrtF draws spot rate maturity vol 0
  let payoffs := ST.map o.payoff
  expF (-(m.rate * maturity)) * (payoffs.sum / (payoffs.length : α))

end MonteCarloPricer

/-- Python `int(x)` truncation toward zero for a field with a floor. -/
def pyInt {α : Type} [LinearOrderedField α] [FloorRing α] (x : α) : ℤ :=
  if x < 0 then -⌊-x⌋ else ⌊x⌋

/-- Embeds `CouponBond` state (`coupon_bond.py` lines 7-27); `freq` is the
integer `payment_frequency`. -/
structure CouponBond (α : Type) where
  nominal : α
  coupon_rate : α
  maturity : α
  freq : ℤ
  deriving DecidableEq, Repr

namespace CouponBond

variable {α : Type} [LinearOrderedField α] [FloorRing α]

/-- Embeds `CouponBond.cashflows` (`coupon_bond.py` lines 29-48):
`n_payments = int(maturity * freq)` coupon cashflows of
`nominal·coupon_rate/freq` at times `i/freq` for `i = 1..n_payments`,
with the final tuple replaced by one whose amount also carries the
nominal.  `1 / self.freq` raises `ZeroDivisionError` when `freq = 0`;
`flows[-1]` raises `IndexError` when the schedule is empty. -/
def cashflows (b : CouponBond α) : Except PyErr (List (α × α)) :=
  if b.freq = 0 then .error .zeroDivisionError
  else
    let dt : α := 1 / (b.freq : α)
    let n : ℕ := (pyInt (b.maturity * (b.freq : α))).toNat
    let coupon := b.nominal * b.coupon_rate * dt
    let flows := (List.range n).map fun i => (((i + 1 : ℕ) : α) * dt, coupon)
    match flows.getLast? with
    | none => .error .indexError
    | some last => .ok (flows.dropLast ++ [(last.1, last.2 + b.nominal)])

/-- The `for (i, cf) in self.cashflows()` accumulation loop of
`CouponBond.price` (`coupon_bond.py` lines 57-62): cashflows with
`time - t >= 0` contribute `cf · discount_factor(time - t)`. -/
def priceAux (expF : α → α) (curve : YieldCurve α) (t : α) :
    List (α × α) → α → Except PyErr α
  | [], pv => .ok pv
  | (time, cf) :: rest, pv =>
    if 0 ≤ time - t then
      match curve.discount_factor expF (time - t) with
      | .ok df => priceAux expF curve t rest (pv + cf * df)
      | .error e => .error e
    else
      priceAux expF curve t rest pv

/-- Embeds `CouponBond.price` (`coupon_bond.py` lines 50-64). -/
def price (expF : α → α) (b : CouponBond α) (curve : YieldCurve α)
    (t : α) : Except PyErr α :=
  match b.cashflows with
  | .error e => .error e
  | .ok flows => priceAux expF curve t flows 0

end CouponBond

/-- Embeds `InterestRateSwap` state (`swap.py` lines 9-25). -/
structure InterestRateSwap (α : Type) where
  notional : α
  fixed_rate : α
  payment_times : List α
  deriving DecidableEq, Repr

namespace InterestRateSwap

variable {α : Type} [LinearOrderedField α]

/-- The `for i, time in enumerate(self.payment_times)` loop of
`InterestRateSwap.pv_fixed_leg` (`swap.py` lines 31-41): payments with
`time - t >= 0` contribute `dt · discount_factor(time - t)` where `dt`
is `time` for the first payment (`i == 0`) and
`time - payment_times[i-1]` otherwise; `prev` carries
`payment_times[i-1]` (`none` at the head of the list). -/
def pvFixedAux (expF : α → α) (curve : YieldCurve α) (t : α) :
    List α → Option α → α → Except PyErr α
  | [], _, pv => .ok pv
  | time :: rest, prev, pv =>
    if 0 ≤ time - t then
      let dt := match prev with
        | none => time
        | some p => time - p
      match curve.discount_factor expF (time - t) with
      | .ok df => pvFixedAux expF curve t rest (some time) (pv + dt * df)
      | .error e => .error e
    else
      pvFixedAux expF curve t rest (some time) pv

/-- Embeds `InterestRateSwap.pv_fixed_leg` (`swap.py` lines 27-42): the
accumulated sum times `fixed_rate` times `notional`. -/
def pv_fixed_leg (expF : α → α) (s : InterestRateSwap α)
    (curve : YieldCurve α) (t : α) : Except PyErr α :=
  match pvFixedAux expF curve t s.payment_times none 0 with
  | .ok pv => .ok (pv * s.fixed_rate * s.notional)
  | .error e => .error e

/-- Embeds `InterestRateSwap.pv_floating_leg` (`swap.py` lines 44-55):
`notional·(DF(times[0]) - DF(times[-1]))` over the shifted remaining
payment times; `times[0]` raises `IndexError` when no payment time
survives the `time - t >= 0` filter. -/
def pv_floating_leg (expF : α → α) (s : InterestRateSwap α)
    (curve : YieldCurve α) (t : α) : Except PyErr α :=
  let times := (s.payment_times.filter fun time => 0 ≤ time - t).map
    fun time => time - t
  match times.head? with
  | none => .error .indexError
  | some t0 =>
    match times.getLast? with
    | none => .error .indexError
    | some tN =>
      match curve.discount_factor expF t0 with
      | .error e => .error e
      | .ok df0 =>
        match curve.discount_factor expF tN with
        | .error e => .error e
        | .ok dfN => .ok (s.notional * (df0 - dfN))

/-- Embeds `InterestRateSwap.swap_rate` (`swap.py` lines 57-65):
`(DF(times[0]) - DF(times[-1])) / (pv_fixed_leg(curve) / fixed_rate / notional)`.
Note the source calls `self.pv_fixed_leg(curve)` with the default
`t=0`, whatever `t` was passed to `swap_rate`.  The divisions raise
`ZeroDivisionError` when `fixed_rate`, `notional` or the resulting
annuity `pv` is zero. -/
def swap_rate (expF : α → α) (s : InterestRateSwap α)
    (curve : YieldCurve α) (t : α) : Except PyErr α :=
  let times := (s.payment_times.filter fun time => 0 ≤ time - t).map
    fun time => time - t
  match times.head? with
  | none => .error .indexError
  | some t0 =>
    match times.getLast? with
    | none => .error .indexError
    | some tN =>
      match curve.discount_factor expF t0 with
      | .error e => .error e
      | .ok df0 =>
        match curve.discount_factor expF tN with
        | .error e => .error e
        | .ok dfT =>
          match s.pv_fixed_leg expF curve 0 with
          | .error e => .error e
          | .ok pvfix =>
            if s.fixed_rate = 0 then .error .zeroDivisionError
            else if s.notional = 0 then .error .zeroDivisionError
            else
              let pv := pvfix / s.fixed_rate / s.notional
              if pv = 0 then .error .zeroDivisionError
              else .ok ((df0 - dfT) / pv)

/-- Embeds `InterestRateSwap.price` (`swap.py` lines 68-75):
`pv_floating_leg - pv_fixed_leg` (payer of fixed). -/
def price (expF : α → α) (s : InterestRateSwap α)
    (curve : YieldCurve α) (t : α) : Except PyErr α :=
  match s.pv_fixed_leg expF curve t with
  | .error e => .error e
  | .ok pvFix =>
    match s.pv_floating_leg expF curve t with
    | .error e => .error e
    | .ok pvFlt => .ok (pvFlt - pvFix)

end InterestRateSwap

/-- Returns `true` exactly when an embedded Python call returns normally
(no exception). -/
def ExceptOk {ε β : Type} : Except ε β → Bool
  | .ok _ => true
  | .error _ => false

/-! ## Shared helper lemmas -/

section Helpers

variable {α : Type} [LinearOrderedField α]

lemma moveRate_zero_keep (ms rs : List α)
    (hlen : ms.length = rs.length) (hnn : ∀ r ∈ rs, 0 ≤ r) :
    YieldCurve.move_rate ⟨ms, rs⟩ 0 = (⟨ms, rs⟩ : YieldCurve α) := by
  have hfil : (ms.zip rs).filter (fun p => decide (0 ≤ p.2 - 0))
      = ms.zip rs := by
    refine List.filter_eq_self.mpr fun a ha => decide_eq_true ?_
    have := hnn a.2 (List.of_mem_zip (a := a.1) (b := a.2) (by simpa using ha)).2
    simpa using this
  have hsnd : (fun p : α × α => p.2 - 0) = Prod.snd := by
    funext p; simp
  simp only [YieldCurve.move_rate, hfil, hsnd, YieldCurve.mk.injEq]
  exact ⟨List.map_fst_zip ms rs (le_of_eq hlen),
    List.map_snd_zip ms rs (le_of_eq hlen.symm)⟩

end Helpers

/-! ## Claims -/

/-- C1: the claim states that `shift_time(Δ)` (`YieldCurve.move_time`)
returns normally with the time-translated re-sampled curve.  In the
source the first statement of the body, `max = max(self.maturities)`,
makes `max` a function-local name read before assignment, so every call
raises `UnboundLocalError` and no curve is ever produced: here the call
on the concrete curve `([1, 2, 5], [0.02, 0.025, 0.03])` with shift 1
raises instead of returning the translated curve. -/
theorem c1_move_time_always_raises :
    YieldCurve.move_time
        (⟨[1, 2, 5], [2/100, 1/40, 3/100]⟩ : YieldCurve ℚ) 1
      = .error .unboundLocalError := rfl

/-- C3: the claim states that the implied-volatility solver evaluates
the analytic price as a function of the volatility argument over the
bracket `[1e-6, 5.0]` and returns NaN (instead of raising) when the
objective does not change sign.  In the source the objective calls
`self.model.call_price(option, vol)` (resp. `put_price`) with a
volatility argument that `BlackScholesModel.call_price`/`put_price` do
not accept, so every invocation — here on concrete example
inputs, a call and a put struck at 100 with one year to run — raises
an uncaught `TypeError` before any bracketing, and the NaN sentinel is
unreachable. -/
theorem c3_implied_vol_always_raises :
    ImpliedVolatilitySolver.implied_vol_call
        (⟨⟨100, 2/100, 1/5, 0, 0⟩⟩ : ImpliedVolatilitySolver ℚ)
        (.europeanCall 100 1) (892/100) = .error .typeError
  ∧ ImpliedVolatilitySolver.implied_vol_put
        (⟨⟨100, 2/100, 1/5, 0, 0⟩⟩ : ImpliedVolatilitySolver ℚ)
        (.europeanPut 100 1) 7 = .error .typeError :=
  ⟨rfl, rfl⟩

/-- C7 counterexample: the claim asserts `shift_rate(0)` is the
identity on every curve "whatever the sign of the stored rates", but
`move_rate` keeps only the knots whose shifted rate is nonnegative, so
a zero shift drops a knot carrying the negative rate `-0.01` and the
result is the empty curve, not the original. -/
theorem c7_zero_shift_cex :
    YieldCurve.move_rate (⟨[1], [-1/100]⟩ : YieldCurve ℚ) 0
      ≠ (⟨[1], [-1/100]⟩ : YieldCurve ℚ) := by
  have h : YieldCurve.move_rate (⟨[1], [-1/100]⟩ : YieldCurve ℚ) 0
      = (⟨[], []⟩ : YieldCurve ℚ) := by
    simp only [YieldCurve.move_rate]
    norm_num [List.filter_cons]
  rw [h]
  intro heq
  exact absurd (congrArg YieldCurve.maturities heq) (by simp)

/-- C7 amended: `shift_rate(0)` returns a curve identical to the
original provided every stored rate is nonnegative (knots with negative
rates are dropped even by a zero shift). -/
theorem c7_zero_shift_identity {α : Type} [LinearOrderedField α]
    (c : YieldCurve α)
    (hlen : c.maturities.length = c.zero_rates.length)
    (hnn : ∀ r ∈ c.zero_rates, 0 ≤ r) :
    c.move_rate 0 = c := by
  obtain ⟨ms, rs⟩ := c
  exact moveRate_zero_keep ms rs hlen hnn

/-- C7 witness: the amended identity evaluated on the concrete curve
`([1, 2], [0.02, 0.025])`. -/
theorem c7_zero_shift_witness :
    YieldCurve.move_rate (⟨[1, 2], [1/50, 1/40]⟩ : YieldCurve ℚ) 0
      = (⟨[1, 2], [1/50, 1/40]⟩ : YieldCurve ℚ) :=
  c7_zero_shift_identity ⟨[1, 2], [1/50, 1/40]⟩ rfl (by norm_num)

/-- C2: the claim states that when a pricing parameter is overridden
per call, `MonteCarloPricer.price` computes
`exp(-rate·maturity)·mean(payoff(S_T))` entirely from the overridden
parameters, the overridden rate entering both the drift and the
discount factor.  In the source the discount factor is
`np.exp(-self.rate * maturity)`, which reads the base rate: with base
rate 0 and a per-call rate override of 1 (exactly what `rho` does), a
one-path deterministic simulation (`vol = 0`, draw `z = 0`, spot 1,
strike 1, maturity 1) returns `exp(0)·(e - 1) = e - 1`, whereas the
claimed value `exp(-1·1)·mean(payoff)` is `exp(-1)·(e - 1)` — the
override reaches the drift but not the discount. -/
theorem c2_mc_discount_uses_base_rate :
    MonteCarloPricer.price Real.exp Real.sqrt
        (⟨1, 0, 0, 0, 1⟩ : MonteCarloPricer ℝ) [0]
        (.europeanCall 1 1) none none (some 1) none
      = Real.exp 1 - 1
  ∧ Real.exp 1 - 1 ≠ Real.exp (-(1 * 1)) * (Real.exp 1 - 1) := by
  constructor
  · simp only [MonteCarloPricer.price, MonteCarloPricer.simulate_terminal_price,
      Option.getD_none, Option.getD_some, EuOption.maturity, EuOption.payoff,
      List.map_cons, List.map_nil, List.sum_cons, List.sum_nil,
      List.length_cons, List.length_nil]
    norm_num
  · have h1 : Real.exp (-(1 * 1)) < 1 := by
      rw [Real.exp_lt_one_iff]; norm_num
    have h2 : 0 < Real.exp 1 - 1 := by
      have := Real.one_lt_exp_iff.mpr (show (0:ℝ) < 1 by norm_num)
      linarith
    intro heq
    nlinarith [mul_pos (sub_pos.mpr h1) h2]

lemma d1_isOk_iff (m : BlackScholesModel ℝ) (k T : ℝ)
    (hspot : 0 < m.spot) (hK : 0 < k) :
    ExceptOk (m.d1 Real.log Real.sqrt k T) = true ↔ m.vol ≠ 0 ∧ 0 < T := by
  rw [BlackScholesModel.d1, if_neg (ne_of_gt hK),
    if_neg (not_le.mpr (div_pos hspot hK))]
  by_cases hT : T < 0
  · rw [if_pos hT]
    constructor
    · intro h; simp [ExceptOk] at h
    · rintro ⟨_, hT2⟩; exact absurd hT2 (by linarith)
  · rw [if_neg hT]
    push_neg at hT
    by_cases hv : m.vol * Real.sqrt T = 0
    · rw [if_pos hv]
      constructor
      · intro h; simp [ExceptOk] at h
      · rintro ⟨h1, h2⟩
        rcases mul_eq_zero.mp hv with h | h
        · exact (h1 h).elim
        · exact absurd ((Real.sqrt_eq_zero hT).mp h) (by linarith)
    · rw [if_neg hv]
      constructor
      · intro _
        rcases mul_ne_zero_iff.mp hv with ⟨h1, h2⟩
        refine ⟨h1, ?_⟩
        rcases lt_or_eq_of_le hT with h | h
        · exact h
        · exact absurd (by rw [← h, Real.sqrt_zero]) h2
      · intro _; rfl

lemma d1_ok_val (m : BlackScholesModel ℝ) (k T : ℝ)
    (h : ExceptOk (m.d1 Real.log Real.sqrt k T) = true) :
    ∃ v, m.d1 Real.log Real.sqrt k T = .ok v := by
  cases hd : m.d1 Real.log Real.sqrt k T with
  | ok v => exact ⟨v, rfl⟩
  | error e => rw [hd] at h; simp [ExceptOk] at h

/-- C4 counterexample: the claim asserts every pricing call fails when
`volatility ≤ 0`, but with the strictly negative volatility `-1` (and
maturity 1, spot 1, strike 1) the denominator `vol·√maturity = -1` is
nonzero, `d1` computes, and `price` returns normally — no error of any
kind is raised. -/
theorem c4_negative_vol_cex :
    ((-1 : ℝ) ≤ 0)
  ∧ ExceptOk (BlackScholesModel.price Real.log Real.sqrt Real.exp
        (fun _ => 1/2) ⟨1, 0, -1, 0, 0⟩ (.europeanCall 1 1)) = true := by
  constructor
  · norm_num
  · simp only [BlackScholesModel.price, BlackScholesModel.call_price,
      BlackScholesModel.d1, EuOption.strike, EuOption.maturity]
    norm_num [Real.sqrt_one, ExceptOk]

/-- C4 amended: for positive spot and strike, every analytic pricing
call (`price`, `delta`, `gamma`, `vega`) returns normally exactly when
`vol ≠ 0` and `maturity > 0`; it fails (with `ZeroDivisionError` from
the division in `d1`, or `ValueError` from `√maturity`) when `vol = 0`
or `maturity ≤ 0`, but a strictly negative volatility with positive
maturity raises nothing. -/
theorem c4_error_conditions (Φ φd : ℝ → ℝ) (m : BlackScholesModel ℝ)
    (o : EuOption ℝ) (hspot : 0 < m.spot) (hK : 0 < o.strike) :
    (ExceptOk (m.price Real.log Real.sqrt Real.exp Φ o) = true
        ↔ ¬(m.vol = 0 ∨ o.maturity ≤ 0))
  ∧ (ExceptOk (m.delta Real.log Real.sqrt Φ o) = true
        ↔ ¬(m.vol = 0 ∨ o.maturity ≤ 0))
  ∧ (ExceptOk (m.gamma Real.log Real.sqrt φd o) = true
        ↔ ¬(m.vol = 0 ∨ o.maturity ≤ 0))
  ∧ (ExceptOk (m.vega Real.log Real.sqrt φd o) = true
        ↔ ¬(m.vol = 0 ∨ o.maturity ≤ 0)) := by
  have hiff := d1_isOk_iff m o.strike o.maturity hspot hK
  have hnot : ¬(m.vol = 0 ∨ o.maturity ≤ 0) ↔ (m.vol ≠ 0 ∧ 0 < o.maturity) := by
    push_neg; rfl
  rw [hnot]
  by_cases hd1 : ExceptOk (m.d1 Real.log Real.sqrt o.strike o.maturity) = true
  · obtain ⟨v, hv⟩ := d1_ok_val m o.strike o.maturity hd1
    obtain ⟨hvol, hT⟩ := hiff.mp hd1
    have hden : m.spot * m.vol * Real.sqrt o.maturity ≠ 0 := by
      refine mul_ne_zero (mul_ne_zero (ne_of_gt hspot) hvol) ?_
      exact ne_of_gt (Real.sqrt_pos.mpr hT)
    refine ⟨?_, ?_, ?_, ?_⟩
    · cases o with
      | europeanCall k T =>
        simp only [BlackScholesModel.price, BlackScholesModel.call_price, hv,
          ExceptOk]
        simpa using ⟨hvol, hT⟩
      | europeanPut k T =>
        simp only [BlackScholesModel.price, BlackScholesModel.put_price, hv,
          ExceptOk]
        simpa using ⟨hvol, hT⟩
    · cases o with
      | europeanCall k T =>
        simp only [BlackScholesModel.delta, BlackScholesModel.call_delta, hv,
          ExceptOk]
        simpa using ⟨hvol, hT⟩
      | europeanPut k T =>
        simp only [BlackScholesModel.delta, BlackScholesModel.put_delta, hv,
          ExceptOk]
        simpa using ⟨hvol, hT⟩
    · simp only [BlackScholesModel.gamma, hv, if_neg hden, ExceptOk]
      simpa using ⟨hvol, hT⟩
    · simp only [BlackScholesModel.vega, hv, ExceptOk]
      simpa using ⟨hvol, hT⟩
  · have hcond : ¬(m.vol ≠ 0 ∧ 0 < o.maturity) := fun hc => hd1 (hiff.mpr hc)
    obtain ⟨e, he⟩ : ∃ e, m.d1 Real.log Real.sqrt o.strike o.maturity
        = .error e := by
      cases hd : m.d1 Real.log Real.sqrt o.strike o.maturity with
      | ok v => rw [hd] at hd1; simp [ExceptOk] at hd1
      | error e => exact ⟨e, rfl⟩
    refine ⟨?_, ?_, ?_, ?_⟩
    · cases o with
      | europeanCall k T =>
        simp only [BlackScholesModel.price, BlackScholesModel.call_price, he,
          ExceptOk]
        simpa using hcond
      | europeanPut k T =>
        simp only [BlackScholesModel.price, BlackScholesModel.put_price, he,
          ExceptOk]
        simpa using hcond
    · cases o with
      | europeanCall k T =>
        simp only [BlackScholesModel.delta, BlackScholesModel.call_delta, he,
          ExceptOk]
        simpa using hcond
      | europeanPut k T =>
        simp only [BlackScholesModel.delta, BlackScholesModel.put_delta, he,
          ExceptOk]
        simpa using hcond
    · simp only [BlackScholesModel.gamma, he, ExceptOk]
      simpa using hcond
    · simp only [BlackScholesModel.vega, he, ExceptOk]
      simpa using hcond

/-- C4 witness: with spot 1, strike 1, vol 1, maturity 1 all four
pricing calls return normally; with vol 0 the price call fails. -/
theorem c4_error_conditions_witness :
    ExceptOk (BlackScholesModel.price Real.log Real.sqrt Real.exp
        (fun _ => 1/2) ⟨1, 0, 1, 0, 0⟩ (.europeanCall 1 1)) = true
  ∧ ExceptOk (BlackScholesModel.price Real.log Real.sqrt Real.exp
        (fun _ => 1/2) ⟨1, 0, 0, 0, 0⟩ (.europeanCall 1 1)) = false := by
  constructor
  · exact (c4_error_conditions (fun _ => 1/2) (fun _ => 1/2)
      ⟨1, 0, 1, 0, 0⟩ (.europeanCall 1 1) (by norm_num)
      (by norm_num [EuOption.strike])).1.mpr (by norm_num [EuOption.maturity])
  · have h := (c4_error_conditions (fun _ => 1/2) (fun _ => 1/2)
      ⟨1, 0, 0, 0, 0⟩ (.europeanCall 1 1) (by norm_num)
      (by norm_num [EuOption.strike])).1
    by_contra hne
    have : ExceptOk (BlackScholesModel.price Real.log Real.sqrt Real.exp
        (fun _ => 1/2) ⟨1, 0, 0, 0, 0⟩ (.europeanCall 1 1)) = true := by
      cases hx : ExceptOk (BlackScholesModel.price Real.log Real.sqrt Real.exp
          (fun _ => 1/2) ⟨1, 0, 0, 0, 0⟩ (.europeanCall 1 1))
      · exact absurd hx hne
      · rfl
    exact absurd (h.mp this) (by norm_num)

lemma put_price_congr (Φ : ℝ → ℝ) (m : BlackScholesModel ℝ)
    (o1 o2 : EuOption ℝ) (hk : o1.strike = o2.strike)
    (hT : o1.maturity = o2.maturity) :
    m.put_price Real.log Real.sqrt Real.exp Φ o1
      = m.put_price Real.log Real.sqrt Real.exp Φ o2 := by
  unfold BlackScholesModel.put_price BlackScholesModel.d1
  rw [hk, hT]

lemma bs_call_cex_eval :
    BlackScholesModel.call_price Real.log Real.sqrt Real.exp (fun _ => 1/2)
      ⟨1, 0, 1, 1, 0⟩ (.europeanCall 1 1) = .ok 0 := by
  simp only [BlackScholesModel.call_price, BlackScholesModel.d1,
    EuOption.strike, EuOption.maturity]
  norm_num [Real.sqrt_one, Real.log_one, Real.exp_zero]

lemma bs_put_cex_eval :
    BlackScholesModel.put_price Real.log Real.sqrt Real.exp (fun _ => 1/2)
      ⟨1, 0, 1, 1, 0⟩ (.europeanPut 1 1) = .ok 0 := by
  simp only [BlackScholesModel.put_price, BlackScholesModel.d1,
    EuOption.strike, EuOption.maturity]
  norm_num [Real.sqrt_one, Real.log_one, Real.exp_zero]

/-- C5 counterexample: the claim asserts put–call parity with the
dividend term, `call - put = spot·exp(-q·T) - K·exp(-r·T)`.  With
spot 1, strike 1, rate 0, dividend yield `q = 1`, zero repo, vol 1,
maturity 1 (and the cumulative-distribution symmetry shared by the
normal CDF), both prices evaluate to 0, so `call - put = 0`, while the
claimed right-hand side `1·exp(-1·1) - 1·exp(-0·1) = e⁻¹ - 1` is
nonzero: the source prices carry no `exp(-q·T)` factor on the spot
leg. -/
theorem c5_parity_dividend_cex :
    BlackScholesModel.call_price Real.log Real.sqrt Real.exp (fun _ => 1/2)
        ⟨1, 0, 1, 1, 0⟩ (.europeanCall 1 1) = .ok 0
  ∧ BlackScholesModel.put_price Real.log Real.sqrt Real.exp (fun _ => 1/2)
        ⟨1, 0, 1, 1, 0⟩ (.europeanPut 1 1) = .ok 0
  ∧ (0 : ℝ) - 0 ≠ 1 * Real.exp (-(1 * 1)) - 1 * Real.exp (-(0 * 1)) := by
  refine ⟨bs_call_cex_eval, bs_put_cex_eval, ?_⟩
  have h1 : Real.exp (-(1 * 1)) < 1 := by
    rw [Real.exp_lt_one_iff]; norm_num
  have h2 : Real.exp (-(0 * 1)) = 1 := by norm_num
  rw [h2]
  intro h
  have : Real.exp (-(1 * 1)) = 1 := by linarith
  rw [this] at h1
  norm_num at h1

/-- C5 amended: for the analytic model, matched-strike/maturity call
and put prices that return normally satisfy the dividend-free parity
`call - put = spot - K·exp(-rate·T)` (the `exp(-q·T)` factor on spot is
absent from the source formulas; the claimed dividend-adjusted parity
holds only when `q·T = 0`).  `Φ` is only required to satisfy the
reflection identity `Φ(x) + Φ(-x) = 1` of the standard normal CDF. -/
theorem c5_parity_no_dividend (Φ : ℝ → ℝ)
    (hΦ : ∀ x, Φ x + Φ (-x) = 1) (m : BlackScholesModel ℝ)
    (oc op : EuOption ℝ) (hk : oc.strike = op.strike)
    (hT : oc.maturity = op.maturity) (cv pv : ℝ)
    (hc : m.call_price Real.log Real.sqrt Real.exp Φ oc = .ok cv)
    (hp : m.put_price Real.log Real.sqrt Real.exp Φ op = .ok pv) :
    cv - pv = m.spot - oc.strike * Real.exp (-(m.rate * oc.maturity)) := by
  rw [← put_price_congr Φ m oc op hk hT] at hp
  cases hd : m.d1 Real.log Real.sqrt oc.strike oc.maturity with
  | error e =>
    rw [BlackScholesModel.call_price, hd] at hc
    exact absurd hc (by simp)
  | ok d1v =>
    rw [BlackScholesModel.call_price, hd] at hc
    rw [BlackScholesModel.put_price, hd] at hp
    simp only [Except.ok.injEq] at hc hp
    have h1 := hΦ d1v
    have h2 := hΦ (d1v - m.vol * Real.sqrt oc.maturity)
    rw [← hc, ← hp]
    linear_combination m.spot * h1
      - oc.strike * Real.exp (-(m.rate * oc.maturity)) * h2

/-- C5 witness: the amended parity applied at spot 1, strike 1,
rate 0, q 1, vol 1, maturity 1, where both prices are 0 and
`spot - K·exp(-r·T) = 1 - 1 = 0`. -/
theorem c5_parity_witness :
    (0 : ℝ) - 0 = (1 : ℝ) - 1 * Real.exp (-(0 * 1)) :=
  c5_parity_no_dividend (fun _ => 1/2) (fun x => by norm_num)
    ⟨1, 0, 1, 1, 0⟩ (.europeanCall 1 1) (.europeanPut 1 1) rfl rfl 0 0
    bs_call_cex_eval bs_put_cex_eval

lemma head_eq_get_zero {α : Type} (ms : List α) (hne : ms ≠ []) :
    ms.head hne = ms.get ⟨0, List.length_pos.mpr hne⟩ := by
  cases ms with
  | nil => exact absurd rfl hne
  | cons m l => rfl

section SortedLemmas

variable {α : Type} [LinearOrderedField α]

lemma sorted_get_lt (ms : List α) (hp : ms.Pairwise (· < ·))
    {i j : ℕ} (hi : i < ms.length) (hj : j < ms.length) (hij : i < j) :
    ms.get ⟨i, hi⟩ < ms.get ⟨j, hj⟩ :=
  List.pairwise_iff_get.mp hp ⟨i, hi⟩ ⟨j, hj⟩ hij

lemma sorted_get_le (ms : List α) (hp : ms.Pairwise (· < ·))
    {i j : ℕ} (hi : i < ms.length) (hj : j < ms.length) (hij : i ≤ j) :
    ms.get ⟨i, hi⟩ ≤ ms.get ⟨j, hj⟩ := by
  rcases lt_or_eq_of_le hij with h | h
  · exact le_of_lt (sorted_get_lt ms hp hi hj h)
  · subst h; exact le_rfl

lemma interpLoop_bracket (t : α) (i : ℕ) :
    ∀ (ms rs : List α) (_hp : ms.Pairwise (· < ·))
      (hlen : ms.length = rs.length) (hi1 : i + 1 < ms.length),
      ms.get ⟨i, by omega⟩ < t → t < ms.get ⟨i + 1, hi1⟩ →
      YieldCurve.interpLoop t ms rs
        = .ok (some (rs.get ⟨i, by omega⟩
            + (t - ms.get ⟨i, by omega⟩)
              / (ms.get ⟨i + 1, hi1⟩ - ms.get ⟨i, by omega⟩)
              * (rs.get ⟨i + 1, by omega⟩ - rs.get ⟨i, by omega⟩))) := by
  induction i with
  | zero =>
    intro ms rs hp hlen hi1 hlt hgt
    obtain ⟨m1, m2, ms', rfl⟩ : ∃ a b l, ms = a :: b :: l := by
      cases ms with
      | nil => simp at hi1
      | cons a l =>
        cases l with
        | nil => simp at hi1
        | cons b l' => exact ⟨a, b, l', rfl⟩
    obtain ⟨r1, r2, rs', rfl⟩ : ∃ a b l, rs = a :: b :: l := by
      cases rs with
      | nil => simp at hlen
      | cons a l =>
        cases l with
        | nil => simp at hlen
        | cons b l' => exact ⟨a, b, l', rfl⟩
    have hlt' : m1 < t := hlt
    have hgt' : t < m2 := hgt
    simp only [YieldCurve.interpLoop]
    rw [if_pos ⟨le_of_lt hlt', le_of_lt hgt'⟩]
    rfl
  | succ k ih =>
    intro ms rs hp hlen hi1 hlt hgt
    obtain ⟨m1, m2, ms', rfl⟩ : ∃ a b l, ms = a :: b :: l := by
      cases ms with
      | nil => simp at hi1
      | cons a l =>
        cases l with
        | nil => simp at hi1
        | cons b l' => exact ⟨a, b, l', rfl⟩
    obtain ⟨r1, r2, rs', rfl⟩ : ∃ a b l, rs = a :: b :: l := by
      cases rs with
      | nil => simp at hlen
      | cons a l =>
        cases l with
        | nil => simp at hlen
        | cons b l' => exact ⟨a, b, l', rfl⟩
    have hk1 : k + 1 < (m2 :: ms').length := by
      simp only [List.length_cons] at hi1 ⊢; omega
    have hk0 : k < (m2 :: ms').length := by omega
    have hlt' : (m2 :: ms').get ⟨k, hk0⟩ < t := hlt
    have hgt' : t < (m2 :: ms').get ⟨k + 1, hk1⟩ := hgt
    have hm2le : m2 ≤ (m2 :: ms').get ⟨k, hk0⟩ := by
      have h0 : (0 : ℕ) < (m2 :: ms').length := by simp
      have := sorted_get_le (m2 :: ms') hp.of_cons h0 hk0 (Nat.zero_le k)
      simpa [List.get_cons_zero] using this
    have hm2t : ¬(m1 ≤ t ∧ t ≤ m2) := by
      rintro ⟨_, h2⟩
      exact absurd h2 (not_le.mpr (lt_of_le_of_lt hm2le hlt'))
    simp only [YieldCurve.interpLoop]
    rw [if_neg hm2t]
    exact ih (m2 :: ms') (r2 :: rs') hp.of_cons (by simpa using hlen) hk1
      hlt' hgt'

end SortedLemmas

/-- C6: for a curve with at least one knot and strictly increasing
positive maturities (lists of equal length), `zero_rate` returns the
stored rate at a knot maturity, the linear scaling
`r(t₀)·t/t₀` below the first knot, the flat last rate above the last
knot, and the linear interpolation
`r₁ + (t-t₁)/(t₂-t₁)·(r₂-r₁)` between bracketing knots. -/
theorem c6_zero_rate_interpolation {α : Type} [LinearOrderedField α]
    (c : YieldCurve α) (hne : c.maturities ≠ [])
    (hsort : c.maturities.Chain' (· < ·))
    (hpos : ∀ m ∈ c.maturities, 0 < m)
    (hlen : c.maturities.length = c.zero_rates.length) :
    (∀ (i : ℕ) (hi : i < c.maturities.length),
        c.zero_rate (c.maturities.get ⟨i, hi⟩)
          = .ok (some (c.zero_rates.get ⟨i, hlen ▸ hi⟩)))
  ∧ (∀ t : α, t < c.maturities.head hne →
        c.zero_rate t = .ok (some
          (c.zero_rates.head
              (List.length_pos.mp (hlen ▸ List.length_pos.mpr hne))
            * t / c.maturities.head hne)))
  ∧ (∀ t : α, c.maturities.getLast hne < t →
        c.zero_rate t = .ok (some (c.zero_rates.getLast
          (List.length_pos.mp (hlen ▸ List.length_pos.mpr hne)))))
  ∧ (∀ (t : α) (i : ℕ) (hi1 : i + 1 < c.maturities.length),
        c.maturities.get ⟨i, by omega⟩ < t →
        t < c.maturities.get ⟨i + 1, hi1⟩ →
        c.zero_rate t = .ok (some
          (c.zero_rates.get ⟨i, by omega⟩
            + (t - c.maturities.get ⟨i, by omega⟩)
              / (c.maturities.get ⟨i + 1, hi1⟩
                 - c.maturities.get ⟨i, by omega⟩)
              * (c.zero_rates.get ⟨i + 1, by omega⟩
                 - c.zero_rates.get ⟨i, by omega⟩)))) := by
  obtain ⟨ms, rs⟩ := c
  simp only at hne hsort hpos hlen ⊢
  have hp : ms.Pairwise (· < ·) := List.chain'_iff_pairwise.mp hsort
  have hnd : ms.Nodup := hp.imp fun h => ne_of_lt h
  have hrne : rs ≠ [] := List.length_pos.mp (hlen ▸ List.length_pos.mpr hne)
  have h0 : 0 < ms.length := List.length_pos.mpr hne
  have hm0 : ms.head hne = ms.get ⟨0, h0⟩ := head_eq_get_zero ms hne
  have hlast : ms.getLast hne = ms.get ⟨ms.length - 1, by omega⟩ :=
    List.getLast_eq_get ms hne
  refine ⟨?_, ?_, ?_, ?_⟩
  · -- exact knot match
    intro i hi
    simp only [YieldCurve.zero_rate]
    rw [if_pos (List.get_mem ms i hi), List.get_indexOf hnd ⟨i, hi⟩,
      List.get?_eq_get (show i < rs.length by omega)]
  · -- below the first knot
    intro t ht
    have hnotmem : t ∉ ms := by
      intro hmem
      obtain ⟨j, hj⟩ := List.mem_iff_get.mp hmem
      have hle := sorted_get_le ms hp h0 j.isLt (Nat.zero_le j.val)
      rw [hj] at hle
      rw [hm0] at ht
      exact absurd (lt_of_le_of_lt hle ht) (lt_irrefl _)
    simp only [YieldCurve.zero_rate]
    rw [if_neg hnotmem, List.head?_eq_head hne]
    simp only
    rw [if_pos (le_of_lt ht), List.head?_eq_head hrne]
    simp only
    rw [if_neg (ne_of_gt (hpos _ (List.head_mem hne)))]
  · -- above the last knot
    intro t ht
    have hnotmem : t ∉ ms := by
      intro hmem
      obtain ⟨j, hj⟩ := List.mem_iff_get.mp hmem
      have hle := sorted_get_le ms hp j.isLt (show ms.length - 1 < ms.length
        by omega) (by omega)
      rw [hj] at hle
      rw [hlast] at ht
      exact absurd (lt_of_le_of_lt hle ht) (lt_irrefl _)
    simp only [YieldCurve.zero_rate]
    rw [if_neg hnotmem, List.head?_eq_head hne]
    simp only
    have hm0t : ¬(t ≤ ms.head hne) := by
      rw [hm0]
      have hle := sorted_get_le ms hp h0 (show ms.length - 1 < ms.length
        by omega) (by omega)
      rw [← hlast] at hle
      exact not_le.mpr (lt_of_le_of_lt hle ht)
    rw [if_neg hm0t, List.getLast?_eq_getLast ms hne]
    simp only
    rw [if_pos (le_of_lt ht), List.getLast?_eq_getLast rs hrne]
  · -- strictly between two bracketing knots
    intro t i hi1 hlo hhi
    have hnotmem : t ∉ ms := by
      intro hmem
      obtain ⟨j, hj⟩ := List.mem_iff_get.mp hmem
      rcases le_or_lt j.val i with hji | hji
      · have hle := sorted_get_le ms hp j.isLt (show i < ms.length by omega)
          hji
        rw [hj] at hle
        exact absurd (lt_of_le_of_lt hle hlo) (lt_irrefl _)
      · have hle := sorted_get_le ms hp hi1 j.isLt hji
        rw [hj] at hle
        exact absurd (lt_of_lt_of_le hhi hle) (lt_irrefl _)
    simp only [YieldCurve.zero_rate]
    rw [if_neg hnotmem, List.head?_eq_head hne]
    simp only
    have hm0t : ¬(t ≤ ms.head hne) := by
      rw [hm0]
      have hle := sorted_get_le ms hp h0 (show i < ms.length by omega)
        (Nat.zero_le i)
      exact not_le.mpr (lt_of_le_of_lt hle hlo)
    rw [if_neg hm0t, List.getLast?_eq_getLast ms hne]
    simp only
    have hlastt : ¬(ms.getLast hne ≤ t) := by
      rw [hlast]
      have hle := sorted_get_le ms hp hi1 (show ms.length - 1 < ms.length
        by omega) (by omega)
      exact not_le.mpr (lt_of_lt_of_le hhi hle)
    rw [if_neg hlastt]
    exact interpLoop_bracket t i ms rs hp hlen hi1 hlo hhi

/-- C6 witness: instantiated on the concrete scenario of the spec — the
curve with maturities `[1, 2, 5]` and rates `[0.02, 0.025, 0.03]`,
where `zero_rate(3)` interpolates between the knots at 2 and 5 to
`0.025 + (3-2)/(5-2)·(0.03-0.025) = 2/75 ≈ 0.026667`. -/
theorem c6_zero_rate_witness :
    YieldCurve.zero_rate (⟨[1, 2, 5], [2/100, 1/40, 3/100]⟩ : YieldCurve ℚ) 3
      = .ok (some (1/40 + (3 - 2) / (5 - 2) * (3/100 - 1/40)))
  ∧ (1/40 + ((3 : ℚ) - 2) / (5 - 2) * (3/100 - 1/40)) = 2/75 := by
  constructor
  · exact (c6_zero_rate_interpolation
        (⟨[1, 2, 5], [2/100, 1/40, 3/100]⟩ : YieldCurve ℚ)
        (by simp)
        (by simp [List.chain'_cons]; norm_num)
        (by intro m hm;
            simp only [List.mem_cons, List.not_mem_nil, or_false] at hm;
            rcases hm with rfl | rfl | rfl <;> norm_num)
        rfl).2.2.2 3 1 (by norm_num)
      (show (2 : ℚ) < 3 by norm_num) (show (3 : ℚ) < 5 by norm_num)
  · norm_num

section CurveEval

variable {α : Type} [LinearOrderedField α]

lemma zero_rate_single (m0 r0 t : α) (hm : 0 < m0) :
    YieldCurve.zero_rate ⟨[m0], [r0]⟩ t
      = .ok (some (if t ≤ m0 then r0 * t / m0 else r0)) := by
  simp only [YieldCurve.zero_rate]
  by_cases hmem : t ∈ [m0]
  · have ht : t = m0 := by simpa using hmem
    subst ht
    rw [if_pos hmem]
    simp only [List.indexOf_cons_self, List.get?]
    rw [if_pos le_rfl, mul_div_assoc, div_self (ne_of_gt hm), mul_one]
  · rw [if_neg hmem]
    simp only [List.head?_cons, List.getLast?_singleton]
    by_cases hle : t ≤ m0
    · rw [if_pos hle, if_neg (ne_of_gt hm), if_pos hle]
    · rw [if_neg hle, if_pos (le_of_not_le hle), if_neg hle]

lemma discount_factor_single (expF : α → α) (m0 r0 t : α) (hm : 0 < m0) :
    YieldCurve.discount_factor expF ⟨[m0], [r0]⟩ t
      = .ok (expF (-((if t ≤ m0 then r0 * t / m0 else r0) * t))) := by
  rw [YieldCurve.discount_factor, zero_rate_single m0 r0 t hm]

end CurveEval

section PriceAuxLemmas

variable {α : Type} [LinearOrderedField α]

lemma priceAux_sum (expF : α → α) (curve : YieldCurve α) (df : α → α)
    (hdf : ∀ s, 0 ≤ s → curve.discount_factor expF s = .ok (df s)) :
    ∀ (flows : List (α × α)) (pv : α), (∀ p ∈ flows, 0 ≤ p.1) →
      CouponBond.priceAux expF curve 0 flows pv
        = .ok (pv + (flows.map fun p => p.2 * df p.1).sum) := by
  intro flows
  induction flows with
  | nil => intro pv _; simp [CouponBond.priceAux]
  | cons hd tl ih =>
    intro pv hpos
    obtain ⟨time, cf⟩ := hd
    have htime : (0 : α) ≤ time := by
      simpa using hpos (time, cf) (List.mem_cons_self _ _)
    simp only [CouponBond.priceAux, sub_zero]
    rw [if_pos htime, hdf time htime]
    refine (ih (pv + cf * df time)
      (fun p hp => hpos p (List.mem_cons_of_mem _ hp))).trans ?_
    rw [List.map_cons, List.sum_cons, add_assoc]

end PriceAuxLemmas

section BondLemmas

variable {α : Type} [LinearOrderedField α] [FloorRing α]

lemma cashflows_zero_coupon (b : CouponBond α) (hcoupon : b.coupon_rate = 0)
    (hfreq : 1 ≤ b.freq) (k : ℕ) (hk : 1 ≤ k)
    (hmat : b.maturity * (b.freq : α) = (k : α)) :
    b.cashflows = .ok
      (((List.range (k - 1)).map
          fun i => (((i + 1 : ℕ) : α) * (1 / (b.freq : α)), 0))
        ++ [(b.maturity, b.nominal)]) := by
  have hfne : b.freq ≠ 0 := by omega
  have hfpos : (0 : α) < (b.freq : α) := by
    have h : (0 : ℤ) < b.freq := by omega
    exact_mod_cast h
  simp only [CouponBond.cashflows]
  rw [if_neg hfne]
  have hpy : pyInt (b.maturity * (b.freq : α)) = (k : ℤ) := by
    rw [hmat, pyInt, if_neg (not_lt.mpr (by positivity : (0:α) ≤ (k : α))),
      Int.floor_natCast]
  rw [hpy]
  have hton : ((k : ℤ)).toNat = k := Int.toNat_natCast k
  rw [hton]
  have hcz : b.nominal * b.coupon_rate * (1 / (b.freq : α)) = 0 := by
    rw [hcoupon]; ring
  rw [hcz]
  obtain ⟨k', rfl⟩ : ∃ k', k = k' + 1 := ⟨k - 1, by omega⟩
  rw [List.range_succ, List.map_append]
  simp only [List.map_cons, List.map_nil]
  rw [List.getLast?_concat, List.dropLast_concat]
  simp only [Nat.add_sub_cancel]
  have hlastt : ((k' + 1 : ℕ) : α) * (1 / (b.freq : α)) = b.maturity := by
    rw [← hmat]
    field_simp
  rw [hlastt, zero_add]

/-- C8 counterexample: the claim asserts the zero-coupon identity
`price = nominal·discount_factor(maturity)` for every maturity > 0 and
integer frequency ≥ 1.  With maturity 1.5 and frequency 1 the schedule
has `int(1.5·1) = 1` payment at time 1, so the principal is repaid at
time 1, not at maturity: on the one-knot curve `([1], [0.02])` the
price is `100·exp(-0.02)` while `nominal·DF(1.5) = 100·exp(-0.03)`. -/
theorem c8_zero_coupon_cex :
    CouponBond.price Real.exp (⟨100, 0, 3/2, 1⟩ : CouponBond ℝ)
        ⟨[1], [1/50]⟩ 0 = .ok (100 * Real.exp (-(1/50)))
  ∧ YieldCurve.discount_factor Real.exp (⟨[1], [1/50]⟩ : YieldCurve ℝ) (3/2)
      = .ok (Real.exp (-(3/100)))
  ∧ 100 * Real.exp (-(1/50)) ≠ 100 * Real.exp (-(3/100)) := by
  refine ⟨?_, ?_, ?_⟩
  · have hcf : CouponBond.cashflows (⟨100, 0, 3/2, 1⟩ : CouponBond ℝ)
        = .ok [((1 : ℝ), 100)] := by
      simp only [CouponBond.cashflows]
      rw [if_neg (by norm_num : (1 : ℤ) ≠ 0)]
      have hfl : ⌊(3:ℝ)/2⌋ = 1 := by
        rw [Int.floor_eq_iff]
        constructor <;> norm_num
      have hpy : pyInt ((3/2 : ℝ) * ((1 : ℤ) : ℝ)) = 1 := by
        rw [pyInt, if_neg (by norm_num),
          show ((3:ℝ)/2 * ((1:ℤ):ℝ)) = 3/2 by push_cast; ring, hfl]
      rw [hpy]
      norm_num [List.range_succ]
    rw [CouponBond.price, hcf]
    simp only [CouponBond.priceAux, sub_zero]
    rw [if_pos (by norm_num : (0:ℝ) ≤ 1),
      discount_factor_single Real.exp 1 (1/50) 1 (by norm_num)]
    simp only [CouponBond.priceAux]
    norm_num
  · rw [discount_factor_single Real.exp 1 (1/50) (3/2) (by norm_num)]
    norm_num
  · intro h
    have h2 := mul_left_cancel₀ (show (100:ℝ) ≠ 0 by norm_num) h
    rw [Real.exp_eq_exp] at h2
    norm_num at h2

/-- C8 amended: the zero-coupon identity
`price(curve, 0) = nominal·discount_factor(maturity)` holds for a
coupon rate of 0 whenever `maturity·frequency` is a positive integer
(so the final payment of the schedule falls exactly at the maturity)
and `discount_factor` of the curve returns normally on nonnegative tenors;
when `maturity·frequency` is fractional the principal is repaid at
`floor(maturity·frequency)/frequency` instead. -/
theorem c8_zero_coupon_identity (expF : α → α) (b : CouponBond α)
    (curve : YieldCurve α) (df : α → α)
    (hdf : ∀ s, 0 ≤ s → curve.discount_factor expF s = .ok (df s))
    (hcoupon : b.coupon_rate = 0) (hfreq : 1 ≤ b.freq)
    (k : ℕ) (hk : 1 ≤ k) (hmat : b.maturity * (b.freq : α) = (k : α)) :
    b.price expF curve 0 = .ok (b.nominal * df b.maturity) := by
  have hfpos : (0 : α) < (b.freq : α) := by
    have h : (0 : ℤ) < b.freq := by omega
    exact_mod_cast h
  have hmatpos : (0 : α) ≤ b.maturity := by
    by_contra hneg
    push_neg at hneg
    have hlt : b.maturity * (b.freq : α) < 0 :=
      mul_neg_of_neg_of_pos hneg hfpos
    rw [hmat] at hlt
    have hge : (0 : α) ≤ (k : α) := by positivity
    linarith
  have hposflows : ∀ p ∈ (((List.range (k - 1)).map
      fun i => (((i + 1 : ℕ) : α) * (1 / (b.freq : α)), 0))
        ++ [(b.maturity, b.nominal)]), (0 : α) ≤ p.1 := by
    intro p hp
    rcases List.mem_append.mp hp with h | h
    · simp only [List.mem_map] at h
      obtain ⟨i, _, rfl⟩ := h
      positivity
    · simp only [List.mem_cons, List.not_mem_nil, or_false] at h
      rw [h]
      exact hmatpos
  rw [CouponBond.price, cashflows_zero_coupon b hcoupon hfreq k hk hmat]
  refine (priceAux_sum expF curve df hdf _ 0 hposflows).trans ?_
  congr 1
  rw [List.map_append, List.sum_append]
  simp only [List.map_map, List.map_cons, List.map_nil, List.sum_cons,
    List.sum_nil]
  rw [List.sum_eq_zero, zero_add, zero_add, add_zero]
  intro x hx
  simp only [List.mem_map, Function.comp] at hx
  obtain ⟨i, _, rfl⟩ := hx
  ring

/-- C8 witness: the amended identity on the concrete scenario of the spec —
`nominal 100, coupon 0, maturity 2, frequency 1` on the one-knot curve
`([1], [0.03])`, where the price is `100·exp(-0.03·2)`. -/
theorem c8_zero_coupon_witness :
    CouponBond.price Real.exp (⟨100, 0, 2, 1⟩ : CouponBond ℝ)
        ⟨[1], [3/100]⟩ 0 = .ok (100 * Real.exp (-(3/100 * 2))) := by
  have h := c8_zero_coupon_identity Real.exp
    (⟨100, 0, 2, 1⟩ : CouponBond ℝ) ⟨[1], [3/100]⟩
    (fun s => Real.exp (-((if s ≤ 1 then 3/100 * s / 1 else 3/100) * s)))
    (fun s _ => discount_factor_single Real.exp 1 (3/100) s (by norm_num))
    rfl (by norm_num) 2 (by norm_num) (by push_cast; norm_num)
  rw [h]
  norm_num

end BondLemmas

section SwapLemmas

variable {α : Type} [LinearOrderedField α]

/-- Closed form of the fixed-leg accrual sum accumulated by
`InterestRateSwap.pvFixedAux` at `t = 0`: each payment contributes its
year fraction since the previous payment (or since 0 for the first)
times the discount factor at its date. -/
def accrualSum (df : α → α) : List α → Option α → α
  | [], _ => 0
  | time :: rest, prev =>
    (match prev with | none => time | some p => time - p) * df time
      + accrualSum df rest (some time)

lemma pvFixedAux_eq (expF : α → α) (curve : YieldCurve α) (df : α → α)
    (hdf : ∀ s, 0 ≤ s → curve.discount_factor expF s = .ok (df s)) :
    ∀ (times : List α) (prev : Option α) (pv : α),
      (∀ x ∈ times, 0 ≤ x) →
      InterestRateSwap.pvFixedAux expF curve 0 times prev pv
        = .ok (pv + accrualSum df times prev) := by
  intro times
  induction times with
  | nil => intro prev pv _; simp [InterestRateSwap.pvFixedAux, accrualSum]
  | cons time rest ih =>
    intro prev pv hpos
    have htime : (0 : α) ≤ time := hpos time (List.mem_cons_self _ _)
    simp only [InterestRateSwap.pvFixedAux, sub_zero]
    rw [if_pos htime, hdf time htime]
    refine (ih (some time) _
      (fun x hx => hpos x (List.mem_cons_of_mem _ hx))).trans ?_
    simp only [accrualSum]
    rw [add_assoc]

lemma pv_fixed_leg_eq (expF : α → α) (s : InterestRateSwap α)
    (curve : YieldCurve α) (df : α → α)
    (hdf : ∀ x, 0 ≤ x → curve.discount_factor expF x = .ok (df x))
    (hpos : ∀ x ∈ s.payment_times, 0 ≤ x) :
    s.pv_fixed_leg expF curve 0
      = .ok (accrualSum df s.payment_times none
          * s.fixed_rate * s.notional) := by
  rw [InterestRateSwap.pv_fixed_leg,
    pvFixedAux_eq expF curve df hdf s.payment_times none 0 hpos, zero_add]

lemma accrualSum_some_pos (df : α → α) :
    ∀ (times : List α) (p : α), times ≠ [] →
      (∀ x ∈ times, 0 < df x) → times.Pairwise (· < ·) →
      (∀ x ∈ times, p < x) → 0 < accrualSum df times (some p) := by
  intro times
  induction times with
  | nil => intro p h; exact absurd rfl h
  | cons time rest ih =>
    intro p _ hdfp hpw hgt
    simp only [accrualSum]
    have hterm : 0 < (time - p) * df time :=
      mul_pos (sub_pos.mpr (hgt time (List.mem_cons_self _ _)))
        (hdfp time (List.mem_cons_self _ _))
    rcases eq_or_ne rest [] with rfl | hne
    · simpa [accrualSum] using hterm
    · have hrest := ih time hne
        (fun x hx => hdfp x (List.mem_cons_of_mem _ hx)) hpw.of_cons
        (fun x hx => (List.pairwise_cons.mp hpw).1 x hx)
      linarith

lemma accrualSum_none_pos (df : α → α) (times : List α) (hne : times ≠ [])
    (hdfp : ∀ x ∈ times, 0 < df x) (hpw : times.Pairwise (· < ·))
    (hpos : ∀ x ∈ times, 0 < x) : 0 < accrualSum df times none := by
  cases times with
  | nil => exact absurd rfl hne
  | cons time rest =>
    simp only [accrualSum]
    have hterm : 0 < time * df time :=
      mul_pos (hpos time (List.mem_cons_self _ _))
        (hdfp time (List.mem_cons_self _ _))
    rcases eq_or_ne rest [] with rfl | hne'
    · simpa [accrualSum] using hterm
    · have hrest := accrualSum_some_pos df rest time hne'
        (fun x hx => hdfp x (List.mem_cons_of_mem _ hx)) hpw.of_cons
        (fun x hx => (List.pairwise_cons.mp hpw).1 x hx)
      linarith

lemma filter_map_shift_zero (times : List α) (hpos : ∀ x ∈ times, 0 ≤ x) :
    ((times.filter fun time => 0 ≤ time - 0).map fun time => time - 0)
      = times := by
  have hfil : times.filter (fun time => decide (0 ≤ time - 0)) = times :=
    List.filter_eq_self.mpr fun a ha =>
      decide_eq_true (by simpa using hpos a ha)
  rw [hfil, show (fun time : α => time - 0) = id from funext fun x =>
    sub_zero x, List.map_id]

lemma pv_floating_leg_eq (expF : α → α) (s : InterestRateSwap α)
    (curve : YieldCurve α) (df : α → α)
    (hdf : ∀ x, 0 ≤ x → curve.discount_factor expF x = .ok (df x))
    (hne : s.payment_times ≠ [])
    (hpos : ∀ x ∈ s.payment_times, 0 ≤ x) :
    s.pv_floating_leg expF curve 0
      = .ok (s.notional * (df (s.payment_times.head hne)
          - df (s.payment_times.getLast hne))) := by
  rw [InterestRateSwap.pv_floating_leg, filter_map_shift_zero _ hpos,
    List.head?_eq_head hne, List.getLast?_eq_getLast _ hne]
  simp only
  rw [hdf _ (hpos _ (List.head_mem hne)),
    hdf _ (hpos _ (List.getLast_mem hne))]

lemma swap_rate_eq (expF : α → α) (s : InterestRateSwap α)
    (curve : YieldCurve α) (df : α → α)
    (hdf : ∀ x, 0 ≤ x → curve.discount_factor expF x = .ok (df x))
    (hne : s.payment_times ≠ [])
    (hpos : ∀ x ∈ s.payment_times, 0 ≤ x)
    (hK : s.fixed_rate ≠ 0) (hN : s.notional ≠ 0)
    (hA : accrualSum df s.payment_times none ≠ 0) :
    s.swap_rate expF curve 0
      = .ok ((df (s.payment_times.head hne)
            - df (s.payment_times.getLast hne))
          / accrualSum df s.payment_times none) := by
  rw [InterestRateSwap.swap_rate, filter_map_shift_zero _ hpos,
    List.head?_eq_head hne, List.getLast?_eq_getLast _ hne]
  simp only
  rw [hdf _ (hpos _ (List.head_mem hne)),
    hdf _ (hpos _ (List.getLast_mem hne)),
    pv_fixed_leg_eq expF s curve df hdf hpos]
  simp only
  rw [if_neg hK, if_neg hN]
  have hpv : accrualSum df s.payment_times none * s.fixed_rate * s.notional
      / s.fixed_rate / s.notional = accrualSum df s.payment_times none := by
    field_simp
    ring
  rw [hpv, if_neg hA]

/-- C9: for a swap with positive notional, a non-empty strictly
increasing sequence of positive payment times, nonzero fixed rate, and
a curve whose `discount_factor` returns normally on nonnegative tenors,
if the fixed rate equals `swap_rate(curve)` at `t = 0` then
`price(curve)` at `t = 0` is exactly 0: at the par rate the fixed-leg
PV equals the floating-leg PV. -/
theorem c9_par_swap_price_zero (s : InterestRateSwap ℝ)
    (curve : YieldCurve ℝ) (df : ℝ → ℝ)
    (hdf : ∀ x, 0 ≤ x → curve.discount_factor Real.exp x = .ok (df x))
    (hne : s.payment_times ≠ [])
    (hsort : s.payment_times.Chain' (· < ·))
    (hpos : ∀ x ∈ s.payment_times, 0 < x)
    (hN : 0 < s.notional) (hK : s.fixed_rate ≠ 0)
    (hpar : s.swap_rate Real.exp curve 0 = .ok s.fixed_rate) :
    s.price Real.exp curve 0 = .ok 0 := by
  have hpos' : ∀ x ∈ s.payment_times, (0:ℝ) ≤ x :=
    fun x hx => le_of_lt (hpos x hx)
  have hdfpos : ∀ x ∈ s.payment_times, 0 < df x := by
    intro x hx
    have hok := hdf x (hpos' x hx)
    rw [YieldCurve.discount_factor] at hok
    cases hz : curve.zero_rate x with
    | error e => rw [hz] at hok; simp at hok
    | ok o =>
      cases o with
      | none => rw [hz] at hok; simp at hok
      | some r =>
        rw [hz] at hok
        simp only [Except.ok.injEq] at hok
        rw [← hok]
        exact Real.exp_pos _
  have hpw : s.payment_times.Pairwise (· < ·) :=
    List.chain'_iff_pairwise.mp hsort
  have hA : 0 < accrualSum df s.payment_times none :=
    accrualSum_none_pos df s.payment_times hne hdfpos hpw hpos
  have hsr := swap_rate_eq Real.exp s curve df hdf hne hpos' hK
    (ne_of_gt hN) (ne_of_gt hA)
  rw [hsr] at hpar
  simp only [Except.ok.injEq] at hpar
  rw [InterestRateSwap.price,
    pv_fixed_leg_eq Real.exp s curve df hdf hpos']
  simp only
  rw [pv_floating_leg_eq Real.exp s curve df hdf hne hpos']
  simp only [Except.ok.injEq]
  rw [← hpar]
  field_simp
  ring

end SwapLemmas

/-- Discount-factor function of the one-knot curve `([m0], [r0])` under
the exponential `expF`, matching `discount_factor_single`. -/
def dfSingle {α : Type} [LinearOrderedField α] (expF : α → α)
    (m0 r0 : α) : α → α :=
  fun s => expF (-((if s ≤ m0 then r0 * s / m0 else r0) * s))

/-- C9 witness: the par identity on the concrete scenario of the spec —
payment times `[0.5, 1]` on the one-knot curve `([1], [0.03])`, with
the fixed rate set to the par swap rate; the swap then prices to 0. -/
theorem c9_par_swap_witness :
    InterestRateSwap.price Real.exp
      (⟨1, (dfSingle Real.exp 1 (3/100) (1/2) - dfSingle Real.exp 1 (3/100) 1)
          / accrualSum (dfSingle Real.exp 1 (3/100)) [1/2, 1] none,
        [1/2, 1]⟩ : InterestRateSwap ℝ)
      (⟨[1], [3/100]⟩ : YieldCurve ℝ) 0 = .ok 0 := by
  have hdf : ∀ x : ℝ, 0 ≤ x →
      YieldCurve.discount_factor Real.exp (⟨[1], [3/100]⟩ : YieldCurve ℝ) x
        = .ok (dfSingle Real.exp 1 (3/100) x) :=
    fun x _ => discount_factor_single Real.exp 1 (3/100) x (by norm_num)
  have hne : ([1/2, 1] : List ℝ) ≠ [] := by simp
  have hpos : ∀ x ∈ ([1/2, 1] : List ℝ), (0:ℝ) < x := by
    intro x hx
    simp only [List.mem_cons, List.not_mem_nil, or_false] at hx
    rcases hx with rfl | rfl <;> norm_num
  have hdfpos : ∀ x ∈ ([1/2, 1] : List ℝ), 0 < dfSingle Real.exp 1 (3/100) x :=
    fun x _ => Real.exp_pos _
  have hpw : ([1/2, 1] : List ℝ).Pairwise (· < ·) := by
    refine List.Pairwise.cons ?_ (List.Pairwise.cons ?_ List.Pairwise.nil)
    · intro x hx
      simp only [List.mem_cons, List.not_mem_nil, or_false] at hx
      subst hx
      norm_num
    · intro x hx
      simp at hx
  have hA : 0 < accrualSum (dfSingle Real.exp 1 (3/100)) [1/2, 1] none :=
    accrualSum_none_pos _ _ hne hdfpos hpw hpos
  have hnum : 0 < dfSingle Real.exp 1 (3/100) (1/2) - dfSingle Real.exp 1 (3/100) 1 := by
    have h1 : dfSingle Real.exp 1 (3/100) (1/2) = Real.exp (-(3/400)) := by
      rw [dfSingle, if_pos (by norm_num : (1:ℝ)/2 ≤ 1)]
      norm_num
    have h2 : dfSingle Real.exp 1 (3/100) 1 = Real.exp (-(3/100)) := by
      rw [dfSingle, if_pos le_rfl]
      norm_num
    rw [h1, h2, sub_pos]
    exact Real.exp_lt_exp.mpr (by norm_num)
  have hK : (dfSingle Real.exp 1 (3/100) (1/2) - dfSingle Real.exp 1 (3/100) 1)
      / accrualSum (dfSingle Real.exp 1 (3/100)) [1/2, 1] none ≠ 0 :=
    ne_of_gt (div_pos hnum hA)
  refine c9_par_swap_price_zero _ _ (dfSingle Real.exp 1 (3/100)) hdf hne
    (by rw [List.chain'_cons]
        exact ⟨by norm_num, List.chain'_singleton 1⟩)
    hpos (by norm_num) hK ?_
  exact swap_rate_eq Real.exp _ _ (dfSingle Real.exp 1 (3/100)) hdf hne
    (fun x hx => le_of_lt (hpos x hx)) hK (by norm_num) (ne_of_gt hA)

/-- C10: curve construction checks only that the two lists have equal
length — any equal-length pair is accepted, including the empty pair
and non-increasing maturities — and on the empty curve every
`zero_rate` call (and hence every `discount_factor` call) raises
`IndexError`, so the at-least-one-point and strictly-increasing
invariants are not established at construction. -/
theorem c10_construction_unvalidated :
    (∀ ms rs : List ℚ, ms.length = rs.length →
        YieldCurve.make ms rs = .ok ⟨ms, rs⟩)
  ∧ (∀ ms rs : List ℚ, ms.length ≠ rs.length →
        YieldCurve.make ms rs = .error .valueError)
  ∧ (∀ t : ℚ, YieldCurve.zero_rate ⟨[], []⟩ t = .error .indexError)
  ∧ (∀ (expF : ℚ → ℚ) (t : ℚ),
        YieldCurve.discount_factor expF ⟨[], []⟩ t = .error .indexError) := by
  refine ⟨fun ms rs h => ?_, fun ms rs h => ?_, fun t => ?_, fun expF t => ?_⟩
  · simp [YieldCurve.make, h]
  · simp [YieldCurve.make, h]
  · simp [YieldCurve.zero_rate]
  · simp [YieldCurve.discount_factor, YieldCurve.zero_rate]

/-- C10 witness: the empty curve is constructible, an unsorted curve is
constructible, and `zero_rate` on the empty curve raises `IndexError`
at the concrete query 0. -/
theorem c10_witness :
    YieldCurve.make ([] : List ℚ) [] = .ok ⟨[], []⟩
  ∧ YieldCurve.make [2, 1] ([0, 0] : List ℚ) = .ok ⟨[2, 1], [0, 0]⟩
  ∧ YieldCurve.zero_rate (⟨[], []⟩ : YieldCurve ℚ) 0 = .error .indexError :=
  ⟨c10_construction_unvalidated.1 [] [] rfl,
   c10_construction_unvalidated.1 [2, 1] [0, 0] rfl,
   c10_construction_unvalidated.2.2.1 0⟩
